import Mathlib

/-!
Shallow embedding of the `datastore` Go package (in-memory hierarchical
document store synchronized to a directory tree).

Conventions of the embedding:
* Go byte slices are `List Nat` (each element < 256 where it matters);
  Go strings used as file contents are `String`.
* The external `threadsafe.Map` dependency is modelled as an association
  list with first-match lookup and replace-in-place insertion; its
  `Get/Set/Delete/Len` semantics follow the concurrent-map description in
  the specification (single-key operations on a plain map).
* `encoding/gob` is external; it is modelled as an abstract codec
  (`GobCodec`) whose encode step may fail and whose decode step returns
  the (possibly partially) updated target together with an optional error.
* Pointer-typed Go values are `Option`s; the decode target of
  `Item.Decode` is a `GoRef`, distinguishing a nil interface, a
  non-pointer value, a nil pointer and a valid pointer, which is what the
  `reflect` checks in the source observe.
-/

namespace DS

/-! ## Association-list model of `threadsafe.Map` -/

/-- `Get`: first entry whose key matches. -/
def mapGet {α : Type} : List (String × α) → String → Option α
  | [], _ => none
  | (k', v') :: rest, k => if k' = k then some v' else mapGet rest k

/-- `Set`: replace the first entry with this key, else append. -/
def mapSet {α : Type} : List (String × α) → String → α → List (String × α)
  | [], k, v => [(k, v)]
  | (k', v') :: rest, k, v =>
    if k' = k then (k, v) :: rest else (k', v') :: mapSet rest k v

/-- `Delete`: remove every entry with this key (a Go map holds at most one). -/
def mapDelete {α : Type} (m : List (String × α)) (k : String) : List (String × α) :=
  m.filter (fun kv => kv.1 ≠ k)

@[simp] theorem mapGet_nil {α : Type} (k : String) : mapGet ([] : List (String × α)) k = none := rfl

@[simp] theorem mapGet_cons {α : Type} (k' k : String) (v' : α) (rest : List (String × α)) :
    mapGet ((k', v') :: rest) k = if k' = k then some v' else mapGet rest k := rfl

theorem mapGet_mapSet_self {α : Type} (m : List (String × α)) (k : String) (v : α) :
    mapGet (mapSet m k v) k = some v := by
  induction m with
  | nil => simp [mapSet]
  | cons kv rest ih =>
    obtain ⟨k', v'⟩ := kv
    by_cases h : k' = k <;> simp [mapSet, h, ih]

theorem mapGet_mapSet_ne {α : Type} (m : List (String × α)) (k k₀ : String) (v : α)
    (h : k ≠ k₀) : mapGet (mapSet m k v) k₀ = mapGet m k₀ := by
  induction m with
  | nil => simp [mapSet, h]
  | cons kv rest ih =>
    obtain ⟨k', v'⟩ := kv
    by_cases h' : k' = k
    · subst h'
      simp [mapSet, h]
    · simp only [mapSet, if_neg h']
      by_cases h'' : k' = k₀ <;> simp [h'', ih]

/-! ## Error taxonomy (errors.go) -/

/-- The package error values: the three sentinel errors and
`ErrInvalidDecode`, plus the wrapped external failures that the package
propagates (gob encode/decode failures, base64 corruption, and the
`fmt.Errorf` produced by `Collection.Set(nil)`). -/
inductive DsError where
  | keyNotFound
  | emptyItem
  | invalidPath
  | invalidDecode
  | decodeFailed (msg : String)
  | encodeFailed (msg : String)
  | nilDocument
  | base64Corrupt
  deriving DecidableEq

/-! ## base64 (`encoding/base64` StdEncoding, used by Open/Close) -/

def b64Alphabet : List Char :=
  "ABCDEFGHIJKLMNOPQRSTUVWXYZabcdefghijklmnopqrstuvwxyz0123456789+/".toList

def b64Char (n : Nat) : Char := b64Alphabet.getD n 'A'

def b64Val (c : Char) : Option Nat := b64Alphabet.indexOf? c

/-- Standard base64 encoding of a byte sequence, with `=` padding. -/
def base64Chars : List Nat → List Char
  | a :: b :: c :: rest =>
    b64Char (a / 4) :: b64Char (a % 4 * 16 + b / 16) ::
      b64Char (b % 16 * 4 + c / 64) :: b64Char (c % 64) :: base64Chars rest
  | [a, b] => [b64Char (a / 4), b64Char (a % 4 * 16 + b / 16), b64Char (b % 16 * 4), '=']
  | [a] => [b64Char (a / 4), b64Char (a % 4 * 16), '=', '=']
  | [] => []

def base64Encode (bs : List Nat) : String := String.mk (base64Chars bs)

/-- Standard base64 decoding; `none` models `CorruptInputError`. -/
def base64DecodeChars : List Char → Option (List Nat)
  | [] => some []
  | [c1, c2, '=', '='] => do
    let a ← b64Val c1
    let b ← b64Val c2
    pure [a * 4 + b / 16]
  | [c1, c2, c3, '='] => do
    let a ← b64Val c1
    let b ← b64Val c2
    let c ← b64Val c3
    pure [a * 4 + b / 16, b % 16 * 16 + c / 4]
  | c1 :: c2 :: c3 :: c4 :: rest => do
    let a ← b64Val c1
    let b ← b64Val c2
    let c ← b64Val c3
    let d ← b64Val c4
    let tail ← base64DecodeChars rest
    pure ((a * 4 + b / 16) :: (b % 16 * 16 + c / 4) :: (c % 4 * 64 + d) :: tail)
  | _ => none

def base64Decode (s : String) : Option (List Nat) := base64DecodeChars s.toList

/-! ## Item and gob codec (document.go, §4.2) -/

/-- `Item`: a retrieved (key, raw-bytes) pair. -/
structure Item where
  key : String
  value : List Nat
  deriving DecidableEq

/-- Abstract model of `encoding/gob` for one value type `V`:
`enc` may fail (non-serializable value); `dec` consumes bytes and the
current target value and returns the (possibly partially) written target
together with an optional error message. -/
structure GobCodec (V : Type) where
  enc : V → Except String (List Nat)
  dec : List Nat → V → V × Option String

/-- A Go `interface{}` decode target as seen through `reflect`:
nil interface, non-pointer value, typed nil pointer, or valid pointer
(carrying the pointee). -/
inductive GoRef (V : Type) where
  | nilInterface
  | nonPointer
  | nilPointer
  | pointer (v : V)
  deriving DecidableEq

/-- `Item.Decode` specialised to a valid non-nil pointer target holding
`v`: the empty-value check, then gob decoding. -/
def Item.decodePtr {V : Type} (codec : GobCodec V) (i : Item) (v : V) : V × Option DsError :=
  if i.value = [] then (v, some .emptyItem)
  else
    match codec.dec i.value v with
    | (v', none) => (v', none)
    | (v', some msg) => (v', some (.decodeFailed msg))

/-- `Item.Decode`: reject a nil or non-pointer target with
`ErrInvalidDecode` before looking at the stored bytes, then defer to
`decodePtr`. -/
def Item.decode {V : Type} (codec : GobCodec V) (i : Item) (r : GoRef V) :
    GoRef V × Option DsError :=
  match r with
  | .pointer v =>
    match i.decodePtr codec v with
    | (v', e) => (.pointer v', e)
  | r => (r, some .invalidDecode)

/-! ## Document (document.go) -/

/-- `Document`: a named bag of keyed byte fields. -/
structure Document where
  name : String
  data : List (String × List Nat)
  deriving DecidableEq

/-- `NewDocument`. -/
def Document.new (name : String) : Document := ⟨name, []⟩

/-- `Document.Get`: the stored field as an `Item`, or a zero `Item` when
absent. -/
def Document.get (d : Document) (key : String) : Item :=
  match mapGet d.data key with
  | some b => ⟨key, b⟩
  | none => ⟨"", []⟩

/-- `Document.GetAll`, exactly as written in the source:
`items := make([]Item, d.data.Len())` followed by `append`s, i.e. the
result starts with `Len` zero-valued items. -/
def Document.getAll (d : Document) : List Item :=
  List.replicate d.data.length (⟨"", []⟩ : Item) ++ d.data.map (fun kv => ⟨kv.1, kv.2⟩)

/-- `Document.Set`: gob-encode, store on success. -/
def Document.set {V : Type} (codec : GobCodec V) (d : Document) (key : String) (v : V) :
    Document × Option DsError :=
  match codec.enc v with
  | .error msg => (d, some (.encodeFailed msg))
  | .ok b => (⟨d.name, mapSet d.data key b⟩, none)

/-- `Document.RawSet`: store pre-serialized bytes directly. -/
def Document.rawSet (d : Document) (key : String) (b : List Nat) : Document :=
  ⟨d.name, mapSet d.data key b⟩

/-- `Document.Delete`. -/
def Document.delete (d : Document) (key : String) : Document :=
  ⟨d.name, mapDelete d.data key⟩

/-! ## Generic default helpers (the second unnamed source file) -/

/-- `GetWithDefault`: `var v V` (zero value `zero`), decode into it, and
return `def()` only when the decode error is `ErrEmptyItem`; any other
outcome returns `v` as it stands. The function has no error result. -/
def GetWithDefault {V : Type} (codec : GobCodec V) (zero : V) (doc : Document) (key : String)
    (defFn : Unit → V) : V :=
  match (doc.get key).decodePtr codec zero with
  | (_, some .emptyItem) => defFn ()
  | (v, _) => v

/-- `GetSetWithDefault`: like `GetWithDefault` but on `ErrEmptyItem` it
also persists `def()` via `Set`, returning `Set`'s error; every other
decode error is returned unchanged. The updated document is returned
explicitly (the Go code mutates it in place). -/
def GetSetWithDefault {V : Type} (codec : GobCodec V) (zero : V) (doc : Document) (key : String)
    (defFn : Unit → V) : Document × V × Option DsError :=
  match (doc.get key).decodePtr codec zero with
  | (_, some .emptyItem) =>
    let v := defFn ()
    match doc.set codec key v with
    | (doc', err) => (doc', v, err)
  | (v, err) => (doc, v, err)

/-! ## Collection (collection.go) -/

/-- `Collection`: a named node holding child documents and child
collections (a nested tree; the public API can only build trees, so an
inductive type is a faithful model of the pointer structure). -/
inductive Collection where
  | mk (name : String) (documents : List (String × Document))
      (collections : List (String × Collection))

def Collection.cname : Collection → String
  | .mk n _ _ => n

def Collection.documents : Collection → List (String × Document)
  | .mk _ docs _ => docs

def Collection.subcollections : Collection → List (String × Collection)
  | .mk _ _ colls => colls

/-- `newCollection`. -/
def Collection.new (name : String) : Collection := .mk name [] []

/-- `Collection.Get`: `(*Document, bool)` modelled as an `Option`. -/
def Collection.get (c : Collection) (key : String) : Option Document :=
  mapGet c.documents key

/-- `Collection.GetAll` (`documents.Values()`). -/
def Collection.getAll (c : Collection) : List Document :=
  c.documents.map (fun kv => kv.2)

/-- `Collection.Set`: reject a nil document, else insert/overwrite. -/
def Collection.set : Collection → String → Option Document → Collection × Option DsError
  | .mk n docs colls, _, none => (.mk n docs colls, some .nilDocument)
  | .mk n docs colls, key, some docu => (.mk n (mapSet docs key docu) colls, none)

/-- `Collection.Delete`. -/
def Collection.delete : Collection → String → Collection
  | .mk n docs colls, key => .mk n (mapDelete docs key) colls

/-- `Collection.DeleteCollection`. -/
def Collection.deleteCollection : Collection → String → Collection
  | .mk n docs colls, key => .mk n docs (mapDelete colls key)

/-- `Collection.Document`: get-or-create; returns the child document and
the updated collection (Go mutates the receiver in place). -/
def Collection.document : Collection → String → Document × Collection
  | .mk n docs colls, name =>
    match mapGet docs name with
    | some docu => (docu, .mk n docs colls)
    | none => (Document.new name, .mk n (mapSet docs name (Document.new name)) colls)

/-- `Collection.Collection`: get-or-create for subcollections. -/
def Collection.collection : Collection → String → Collection × Collection
  | .mk n docs colls, name =>
    match mapGet colls name with
    | some c => (c, .mk n docs colls)
    | none => (Collection.new name, .mk n docs (mapSet colls name (Collection.new name)))

/-- Store an updated child collection back under its name (models the
fact that in Go the parent holds a pointer to the child, so in-place
mutation of the child is visible from the parent). -/
def Collection.putCollection : Collection → String → Collection → Collection
  | .mk n docs colls, key, c => .mk n docs (mapSet colls key c)

/-- Store an updated child document back under its name (pointer
mutation, as above). -/
def Collection.putDocument : Collection → String → Document → Collection
  | .mk n docs colls, key, docu => .mk n (mapSet docs key docu) colls

/-- Names of the documents of a collection, in map order. -/
def Collection.documentNames (c : Collection) : List String :=
  c.documents.map (fun kv => kv.1)

/-- Names of the subcollections of a collection, in map order. -/
def Collection.subcollectionNames (c : Collection) : List String :=
  c.subcollections.map (fun kv => kv.1)

/-! ## Datastore (the unnamed datastore source file) -/

/-- `Datastore`: a filesystem path (modelled as a list of segments; only
concatenation is ever performed on it) and the top-level collections. -/
structure Datastore where
  path : List String
  collections : List (String × Collection)

/-- `NewDatastore`. -/
def Datastore.new (path : List String) : Datastore := ⟨path, []⟩

/-- `Datastore.Collection`: root-level get-or-create. -/
def Datastore.collection (d : Datastore) (name : String) : Collection × Datastore :=
  match mapGet d.collections name with
  | some c => (c, d)
  | none => (Collection.new name, ⟨d.path, mapSet d.collections name (Collection.new name)⟩)

/-! ## Filesystem model

A directory tree: every `dir` keeps its entries in the (name-sorted)
order that `os.ReadDir` presents, so insertion is order-preserving
(`entriesSet`). `MkdirAll` and `WriteFile` are the only operations Close
performs; their model never removes an entry, mirroring the real calls
(which either create, overwrite one file, or fail). -/

inductive FsTree where
  | file (content : String)
  | dir (entries : List (String × FsTree))

def FsTree.isDirB : FsTree → Bool
  | .dir _ => true
  | .file _ => false

/-- Byte-wise (= code-point-wise) string order, the order `os.ReadDir`
sorts entries by. -/
def strLtChars : List Char → List Char → Bool
  | [], [] => false
  | [], _ :: _ => true
  | _ :: _, [] => false
  | a :: as, b :: bs =>
    if a.toNat < b.toNat then true
    else if a.toNat = b.toNat then strLtChars as bs
    else false

def strLt (a b : String) : Bool := strLtChars a.toList b.toList

/-- Insert or replace a directory entry, keeping the list name-sorted. -/
def entriesSet : List (String × FsTree) → String → FsTree → List (String × FsTree)
  | [], k, t => [(k, t)]
  | (k', t') :: rest, k, t =>
    if k = k' then (k, t) :: rest
    else if strLt k k' then (k, t) :: (k', t') :: rest
    else (k', t') :: entriesSet rest k t

/-- The node at a path, if any. -/
def lookupPath : FsTree → List String → Option FsTree
  | t, [] => some t
  | .file _, _ :: _ => none
  | .dir es, n :: rest =>
    match mapGet es n with
    | some t => lookupPath t rest
    | none => none

/-- `os.MkdirAll`: create every missing directory on the path; existing
nodes (including files, on which the real call errors out) are never
replaced. -/
def mkdirAllT : FsTree → List String → FsTree
  | t, [] => t
  | .file c, _ :: _ => .file c
  | .dir es, n :: rest =>
    match mapGet es n with
    | some t => .dir (entriesSet es n (mkdirAllT t rest))
    | none => .dir (entriesSet es n (mkdirAllT (.dir []) rest))

/-- `os.WriteFile`: create or overwrite the file at the path; a directory
at the target, or a missing parent, makes the real call fail, so the
model leaves the tree unchanged there. -/
def writeFileT : FsTree → List String → String → FsTree
  | t, [], _ => t
  | .file c, _ :: _, _ => .file c
  | .dir es, n :: rest, s =>
    match rest with
    | [] =>
      match mapGet es n with
      | some (.dir _) => .dir es
      | _ => .dir (entriesSet es n (.file s))
    | _ :: _ =>
      match mapGet es n with
      | some t => .dir (entriesSet es n (writeFileT t rest s))
      | none => .dir es

/-- The two filesystem effects Close performs. -/
inductive FsOp where
  | mkdirAll (p : List String)
  | writeFile (p : List String) (content : String)
  deriving DecidableEq

def applyOp (fs : FsTree) : FsOp → FsTree
  | .mkdirAll p => mkdirAllT fs p
  | .writeFile p s => writeFileT fs p s

def applyOps (fs : FsTree) (ops : List FsOp) : FsTree :=
  ops.foldl applyOp fs

/-! ## Close (save protocol): the filesystem operations it issues -/

/-- Per-document flush: `MkdirAll(documentPath)` then one `WriteFile` per
field, with base64-encoded content. -/
def flushDocOps (docPath : List String) (docu : Document) : List FsOp :=
  FsOp.mkdirAll docPath ::
    docu.data.map (fun kv => FsOp.writeFile (docPath ++ [kv.1]) (base64Encode kv.2))

mutual

/-- `flushCollection` from `Datastore.Close`: create the collection
directory, flush every document, then recurse into every subcollection
with the concatenated path. -/
def flushCollectionOps (base : List String) : Collection → List FsOp
  | .mk _ docs colls =>
    FsOp.mkdirAll base ::
      ((docs.map (fun kv => flushDocOps (base ++ [kv.1]) kv.2)).flatten ++
        flushListOps base colls)

def flushListOps (base : List String) : List (String × Collection) → List FsOp
  | [] => []
  | (n, c) :: rest => flushCollectionOps (base ++ [n]) c ++ flushListOps base rest

end

/-- All operations issued by `Datastore.Close`. -/
def Datastore.closeOps (d : Datastore) : List FsOp :=
  flushListOps d.path d.collections

/-- The filesystem after `Close` runs against `fs`. -/
def Datastore.closeFs (d : Datastore) (fs : FsTree) : FsTree :=
  applyOps fs d.closeOps

/-! ## The (path, content) pairs corresponding to in-memory fields -/

def docFieldWrites (docPath : List String) (docu : Document) : List (List String × String) :=
  docu.data.map (fun kv => (docPath ++ [kv.1], base64Encode kv.2))

mutual

/-- Every field of every document reachable from a collection, as the
file path and base64 content Close would give it. -/
def Collection.fieldWrites (base : List String) : Collection → List (List String × String)
  | .mk _ docs colls =>
    (docs.map (fun kv => docFieldWrites (base ++ [kv.1]) kv.2)).flatten ++
      listFieldWrites base colls

def listFieldWrites (base : List String) : List (String × Collection) → List (List String × String)
  | [] => []
  | (n, c) :: rest => Collection.fieldWrites (base ++ [n]) c ++ listFieldWrites base rest

end

def Datastore.fieldWrites (d : Datastore) : List (List String × String) :=
  listFieldWrites d.path d.collections

/-! ## Open (load protocol) -/

/-- Read one document directory: base64-decode each file and `RawSet` it
under the file's name; the first corrupt file aborts (fail-fast), keeping
the fields already loaded. -/
def loadFields : Document → List (String × FsTree) → Document × Option DsError
  | docu, [] => (docu, none)
  | docu, (fn, .file s) :: rest =>
    match base64Decode s with
    | some b => loadFields (docu.rawSet fn b) rest
    | none => (docu, some .base64Corrupt)
  | docu, (_, .dir _) :: rest => loadFields docu rest

/-- One caller iteration plus callee body of `traverseCollection` below
the root: `child := parent.Collection(name)` followed by
`traverseCollection(child, parent, path/name)`; `previousCollection` is
the parent.  In the collection branch the loop body unconditionally
`return`s, so only the first subdirectory is visited. -/
def stepChild : Collection → String → FsTree → Collection × Option DsError
  | parent, _, .file _ => (parent, some .invalidPath)
  | parent, name, .dir entries =>
    match parent.collection name with
    | (child, parent1) =>
      let isDoc := entries.any (fun e => !e.2.isDirB)
      let isColl := entries.any (fun e => e.2.isDirB)
      if isDoc && isColl then (parent1, some .invalidPath)
      else if isDoc then
        let parent2 := parent1.deleteCollection name
        match parent2.document name with
        | (docu, parent3) =>
          match loadFields docu entries with
          | (docu', err) => (parent3.putDocument name docu', err)
      else if isColl then
        match entries with
        | (n1, t1) :: _ =>
          match stepChild child n1 t1 with
          | (child', err) => (parent1.putCollection name child', err)
        | [] => (parent1, none)
      else (parent1, none)

/-- One iteration of the root loop of `Open`:
`c := datastore.Collection(name)` then `traverseCollection(c, nil,
path/name)`.  With a nil previous collection a document directory is
rejected with `ErrInvalidPath`. -/
def stepTop (d : Datastore) (name : String) (entries : List (String × FsTree)) :
    Datastore × Option DsError :=
  match d.collection name with
  | (c, d1) =>
    let isDoc := entries.any (fun e => !e.2.isDirB)
    let isColl := entries.any (fun e => e.2.isDirB)
    if isDoc && isColl then (d1, some .invalidPath)
    else if isDoc then (d1, some .invalidPath)
    else if isColl then
      match entries with
      | (n1, t1) :: _ =>
        match stepChild c n1 t1 with
        | (c', err) => (⟨d1.path, mapSet d1.collections name c'⟩, err)
      | [] => (d1, none)
    else (d1, none)

/-- The root loop of `Open`: a plain file at root level fails with
`ErrInvalidPath`; each directory becomes a top-level collection and is
traversed; the first error aborts, keeping the tree built so far. -/
def openLoop (d : Datastore) : List (String × FsTree) → Datastore × Option DsError
  | [] => (d, none)
  | (_, .file _) :: _ => (d, some .invalidPath)
  | (name, .dir es) :: rest =>
    match stepTop d name es with
    | (d1, none) => openLoop d1 rest
    | (d1, some e) => (d1, some e)

/-- `Open(path)` for an existing path whose on-disk node is `t`: a
non-directory fails with `ErrInvalidPath`, a directory is traversed.
(For a nonexistent path the Go code just creates the directory and
returns an empty datastore.) -/
def openRoot (path : List String) (t : FsTree) : Datastore × Option DsError :=
  match t with
  | .file _ => (Datastore.new path, some .invalidPath)
  | .dir es => openLoop (Datastore.new path) es

/-!
## Verified properties

Each theorem below settles one statement of the specification against the
embedded code.
-/

/-- A concrete executable codec used to instantiate the abstract gob
parameter in witnesses: a tag byte `1` followed by the value; anything
else is a decode failure that leaves the target untouched. -/
def natCodec : GobCodec Nat where
  enc := fun n => .ok [1, n]
  dec := fun bs v =>
    match bs with
    | [1, n] => (n, none)
    | _ => (v, some "type mismatch")

/-- **C3.** `Document.GetAll` on a document holding exactly one field
does not return exactly one item per field: `make([]Item, Len)` followed
by `append` yields `Len` zero-valued items before the real ones, so a
one-field document yields two items, the first of them the zero `Item`. -/
theorem getAll_prepends_zero_items :
    Document.getAll ⟨"d", [("k", [7])]⟩ = [⟨"", []⟩, ⟨"k", [7]⟩] ∧
    (Document.getAll ⟨"d", [("k", [7])]⟩).length = 2 :=
  ⟨rfl, rfl⟩

/-- **C4 (counterexample).** `RawSet` with an empty byte slice makes a
field that is present (its key is bound) yet whose `Get` item has an
empty `Value`, refuting "empty value only if the key is absent". -/
theorem rawSet_empty_value_present :
    (((Document.new "d").rawSet "k" []).get "k").value = [] ∧
    mapGet ((Document.new "d").rawSet "k" []).data "k" = some [] :=
  ⟨rfl, rfl⟩

/-- **C4 (amended).** `Get` returns an item with an empty value exactly
when the key is absent or the stored bytes are empty (the latter is
reachable through `RawSet`, which stores arbitrary bytes unchecked). -/
theorem get_value_empty_iff (d : Document) (k : String) :
    (d.get k).value = [] ↔ mapGet d.data k = none ∨ mapGet d.data k = some [] := by
  unfold Document.get
  cases h : mapGet d.data k <;> simp

/-- **C6.** After `d.Set(k, v)` succeeds, `d.Get(k).Decode(&out)`
succeeds and yields `v`.  The hypotheses are the contract of
`encoding/gob` for a serializable value: encoding succeeds with a
non-empty byte sequence and decoding those bytes recovers the value. -/
theorem set_get_decode_roundtrip {V : Type} (codec : GobCodec V) (d : Document) (k : String)
    (v v0 : V) (b : List Nat) (henc : codec.enc v = .ok b) (hne : b ≠ [])
    (hdec : codec.dec b v0 = (v, none)) :
    (d.set codec k v).2 = none ∧
    ((d.set codec k v).1.get k).decode codec (.pointer v0) = (.pointer v, none) := by
  constructor
  · simp [Document.set, henc]
  · simp [Document.set, henc, Document.get, mapGet_mapSet_self, Item.decode,
      Item.decodePtr, hne, hdec]

/-- Witness for C6 at the concrete codec `natCodec`. -/
theorem set_get_decode_roundtrip_witness :
    ((Document.new "d").set natCodec "k" 5).2 = none ∧
    (((Document.new "d").set natCodec "k" 5).1.get "k").decode natCodec (.pointer 0) =
      (.pointer 5, none) :=
  set_get_decode_roundtrip natCodec (Document.new "d") "k" 5 0 [1, 5] rfl (by decide) rfl

/-- **C7.** `Item.Decode` returns `ErrInvalidDecode` exactly on a nil or
non-pointer target, independently of the stored bytes; on a valid
pointer target it returns `ErrEmptyItem` exactly when the stored bytes
are empty. -/
theorem decode_error_classification {V : Type} (codec : GobCodec V) (i : Item) (r : GoRef V) :
    ((i.decode codec r).2 = some .invalidDecode ↔
      r = .nilInterface ∨ r = .nonPointer ∨ r = .nilPointer) ∧
    (∀ v : V, r = GoRef.pointer v →
      ((i.decode codec r).2 = some .emptyItem ↔ i.value = [])) := by
  constructor
  · cases r with
    | pointer v =>
      simp only [Item.decode, Item.decodePtr]
      by_cases hv : i.value = []
      · simp [hv]
      · cases hd : codec.dec i.value v with
        | mk v' e => cases e <;> simp [hv, hd]
    | nilInterface => simp [Item.decode]
    | nonPointer => simp [Item.decode]
    | nilPointer => simp [Item.decode]
  · rintro v rfl
    simp only [Item.decode, Item.decodePtr]
    by_cases hv : i.value = []
    · simp [hv]
    · cases hd : codec.dec i.value v with
      | mk v' e => cases e <;> simp [hv, hd]

/-- Witness for C7: on an empty item and a valid pointer target the error
is `ErrEmptyItem`, not `ErrInvalidDecode`. -/
theorem decode_error_classification_witness :
    ((⟨"k", []⟩ : Item).decode natCodec (.pointer 0)).2 = some .emptyItem ∧
    ¬ ((⟨"k", []⟩ : Item).decode natCodec (.pointer 0)).2 = some .invalidDecode := by
  have h := decode_error_classification natCodec (⟨"k", []⟩ : Item) (GoRef.pointer 0)
  refine ⟨(h.2 0 rfl).mpr rfl, fun hc => ?_⟩
  rcases h.1.mp hc with h' | h' | h' <;> exact absurd h' (by simp)

/-- **C8.** For every collection and key, `Collection.Set(k, nil)`
returns a non-nil error and leaves the collection (hence its documents
map) unchanged; in particular, if the key was unbound beforehand, `Get`
still reports not-found afterwards. -/
theorem set_nil_document_rejected (c : Collection) (k : String) :
    (c.set k none).2 = some .nilDocument ∧
    (c.set k none).1 = c ∧
    (c.get k = none → ((c.set k none).1).get k = none) := by
  cases c with
  | mk n docs colls => exact ⟨rfl, rfl, fun h => h⟩

/-- Witness for C8 on a fresh collection, where the key is unbound. -/
theorem set_nil_document_rejected_witness :
    ((Collection.new "c").set "k" none).2 = some .nilDocument ∧
    ((Collection.new "c").set "k" none).1 = Collection.new "c" ∧
    (((Collection.new "c").set "k" none).1).get "k" = none :=
  ⟨(set_nil_document_rejected (Collection.new "c") "k").1,
    (set_nil_document_rejected (Collection.new "c") "k").2.1,
    (set_nil_document_rejected (Collection.new "c") "k").2.2 rfl⟩

/-- **C5 (counterexample).** `GetWithDefault` does not return non-
`EmptyItem` decode errors to the caller: its result type has no error
component.  Concretely, on a stored field whose bytes fail to decode,
`Decode` reports a decode failure, yet `GetWithDefault` returns the
untouched zero value `0` — neither the default `42` nor any error. -/
theorem getWithDefault_swallows_error :
    ((Item.mk "k" [99]).decodePtr natCodec 0).2 = some (.decodeFailed "type mismatch") ∧
    GetWithDefault natCodec 0 ⟨"d", [("k", [99])]⟩ "k" (fun _ => 42) = 0 ∧
    (0 : Nat) ≠ 42 :=
  ⟨rfl, rfl, by decide⟩

/-- **C5 (amended).** Both helpers return `defaultFn()` exactly when
`Decode` fails with `EmptyItem` (and `GetSetWithDefault` then persists
the default via `Set`, returning `Set`'s error).  Every other `Decode`
error is returned unchanged by `GetSetWithDefault`, while
`GetWithDefault`, which has no error result, silently returns the
zero/partially-decoded value. -/
theorem default_helpers_error_propagation {V : Type} (codec : GobCodec V) (zero : V)
    (doc : Document) (key : String) (defFn : Unit → V) :
    (((doc.get key).decodePtr codec zero).2 = some .emptyItem →
      GetWithDefault codec zero doc key defFn = defFn () ∧
      (GetSetWithDefault codec zero doc key defFn).2.1 = defFn () ∧
      (GetSetWithDefault codec zero doc key defFn).1 = (doc.set codec key (defFn ())).1 ∧
      (GetSetWithDefault codec zero doc key defFn).2.2 = (doc.set codec key (defFn ())).2) ∧
    (∀ e, ((doc.get key).decodePtr codec zero).2 = some e → e ≠ .emptyItem →
      GetWithDefault codec zero doc key defFn = ((doc.get key).decodePtr codec zero).1 ∧
      (GetSetWithDefault codec zero doc key defFn).1 = doc ∧
      (GetSetWithDefault codec zero doc key defFn).2.1 = ((doc.get key).decodePtr codec zero).1 ∧
      (GetSetWithDefault codec zero doc key defFn).2.2 = some e) ∧
    (((doc.get key).decodePtr codec zero).2 = none →
      GetWithDefault codec zero doc key defFn = ((doc.get key).decodePtr codec zero).1 ∧
      (GetSetWithDefault codec zero doc key defFn).1 = doc ∧
      (GetSetWithDefault codec zero doc key defFn).2.1 = ((doc.get key).decodePtr codec zero).1 ∧
      (GetSetWithDefault codec zero doc key defFn).2.2 = none) := by
  unfold GetWithDefault GetSetWithDefault
  cases hd : (doc.get key).decodePtr codec zero with
  | mk v e =>
    refine ⟨?_, ?_, ?_⟩
    · intro he
      simp only at he
      subst he
      cases hset : doc.set codec key (defFn ()) with
      | mk doc' err => simp [hset]
    · rintro e' he hne
      simp only at he
      subst he
      cases e' <;> simp_all
    · intro he
      simp only at he
      subst he
      simp

/-- Witness for the amended C5: an absent key triggers the `EmptyItem`
branch of both helpers, with the default persisted by
`GetSetWithDefault`. -/
theorem default_helpers_error_propagation_witness :
    GetWithDefault natCodec 0 (Document.new "d") "k" (fun _ => 42) = 42 ∧
    (GetSetWithDefault natCodec 0 (Document.new "d") "k" (fun _ => 42)).2.1 = 42 ∧
    (GetSetWithDefault natCodec 0 (Document.new "d") "k" (fun _ => 42)).1 =
      ((Document.new "d").set natCodec "k" 42).1 ∧
    (GetSetWithDefault natCodec 0 (Document.new "d") "k" (fun _ => 42)).2.2 =
      ((Document.new "d").set natCodec "k" 42).2 :=
  (default_helpers_error_propagation natCodec 0 (Document.new "d") "k" (fun _ => 42)).1 rfl

/-- **C10.** When the stored bytes are present but fail to decode,
`GetWithDefault` returns whatever the failed decode left in the target
(the zero/partially-decoded value): it neither calls the default
function nor reports the error. -/
theorem getWithDefault_on_decode_failure {V : Type} (codec : GobCodec V) (zero : V)
    (doc : Document) (key : String) (defFn : Unit → V) (msg : String)
    (h : ((doc.get key).decodePtr codec zero).2 = some (.decodeFailed msg)) :
    GetWithDefault codec zero doc key defFn = ((doc.get key).decodePtr codec zero).1 := by
  unfold GetWithDefault
  cases hd : (doc.get key).decodePtr codec zero with
  | mk v e =>
    rw [hd] at h
    simp only at h
    subst h
    simp

/-- Witness for C10: undecodable stored bytes make `GetWithDefault`
return the untouched zero value rather than the default. -/
theorem getWithDefault_on_decode_failure_witness :
    GetWithDefault natCodec 0 ⟨"d", [("k", [99])]⟩ "k" (fun _ => 7) =
      ((Document.get ⟨"d", [("k", [99])]⟩ "k").decodePtr natCodec 0).1 :=
  getWithDefault_on_decode_failure natCodec 0 ⟨"d", [("k", [99])]⟩ "k" (fun _ => 7)
    "type mismatch" rfl

/-- **C2.** A collection directory `a` with two subdirectories `b` and
`c` loads without error, but only the first subdirectory gets a child
collection: the loop body of `traverseCollection` returns after its
first iteration, so the sibling `c` is silently skipped. -/
theorem open_skips_sibling_subdirectory :
    (openRoot [] (.dir [("a", .dir [("b", .dir []), ("c", .dir [])])])).2 = none ∧
    (mapGet (openRoot [] (.dir [("a", .dir [("b", .dir []), ("c", .dir [])])])).1.collections
      "a").map Collection.subcollectionNames = some ["b"] :=
  ⟨rfl, rfl⟩

/-- The in-memory tree for the C1 round-trip counterexample, built with
the public accessors: one collection `a` holding two documents `d1`,
`d2` with one raw field each. -/
def roundTripDs : Datastore :=
  let d0 := Datastore.new []
  match d0.collection "a" with
  | (a, d1) =>
    match a.document "d1" with
    | (doc1, a1) =>
      let a2 := a1.putDocument "d1" (doc1.rawSet "k" [1])
      match a2.document "d2" with
      | (doc2, a3) =>
        let a4 := a3.putDocument "d2" (doc2.rawSet "k" [2])
        ⟨d1.path, mapSet d1.collections "a" a4⟩

/-- **C1.** Close followed by Open does not reproduce the tree: with two
documents in one collection, Open finds both document directories but
recurses only into the first, so the reloaded collection `a` holds
`d1` alone (and reports no error), while the original held `d1` and
`d2`. -/
theorem close_open_drops_sibling_document :
    (mapGet roundTripDs.collections "a").map Collection.documentNames = some ["d1", "d2"] ∧
    (openRoot [] (roundTripDs.closeFs (.dir []))).2 = none ∧
    (mapGet (openRoot [] (roundTripDs.closeFs (.dir []))).1.collections "a").map
      Collection.documentNames = some ["d1"] :=
  ⟨rfl, rfl, rfl⟩

/-! ## Frame lemmas for Close (claim C9) -/

theorem mapGet_entriesSet_self (es : List (String × FsTree)) (k : String) (t : FsTree) :
    mapGet (entriesSet es k t) k = some t := by
  induction es with
  | nil => simp [entriesSet]
  | cons kv rest ih =>
    obtain ⟨k', t'⟩ := kv
    by_cases h : k = k'
    · subst h
      simp [entriesSet]
    · have hk' : k' ≠ k := fun hh => h hh.symm
      by_cases hlt : strLt k k' <;> simp [entriesSet, h, hlt, hk', ih]

theorem mapGet_entriesSet_ne (es : List (String × FsTree)) (k m : String) (t : FsTree)
    (h : m ≠ k) : mapGet (entriesSet es k t) m = mapGet es m := by
  induction es with
  | nil =>
    simp only [entriesSet, mapGet_cons, mapGet_nil]
    rw [if_neg (fun hh : k = m => h hh.symm)]
  | cons kv rest ih =>
    obtain ⟨k', t'⟩ := kv
    have hkm : k ≠ m := fun hh => h hh.symm
    by_cases hk : k = k'
    · subst hk
      simp [entriesSet, hkm]
    · by_cases hlt : strLt k k' <;> simp [entriesSet, hk, hlt, hkm, ih]

theorem lookupPath_nil (t : FsTree) : lookupPath t [] = some t := by
  cases t <;> rfl

theorem lookupPath_dir_cons_some (es : List (String × FsTree)) (m : String) (prest : List String)
    (t : FsTree) (hm : mapGet es m = some t) :
    lookupPath (.dir es) (m :: prest) = lookupPath t prest := by
  simp [lookupPath, hm]

theorem lookupPath_dir_cons_none (es : List (String × FsTree)) (m : String) (prest : List String)
    (hm : mapGet es m = none) : lookupPath (.dir es) (m :: prest) = none := by
  simp [lookupPath, hm]

theorem mkdirAllT_dir_cons_some (es : List (String × FsTree)) (n : String) (qrest : List String)
    (t : FsTree) (hn : mapGet es n = some t) :
    mkdirAllT (.dir es) (n :: qrest) = .dir (entriesSet es n (mkdirAllT t qrest)) := by
  simp [mkdirAllT, hn]

theorem mkdirAllT_dir_cons_none (es : List (String × FsTree)) (n : String) (qrest : List String)
    (hn : mapGet es n = none) :
    mkdirAllT (.dir es) (n :: qrest) = .dir (entriesSet es n (mkdirAllT (.dir []) qrest)) := by
  simp [mkdirAllT, hn]

theorem writeFileT_last_dir (es : List (String × FsTree)) (n s : String)
    (es' : List (String × FsTree)) (hn : mapGet es n = some (.dir es')) :
    writeFileT (.dir es) [n] s = .dir es := by
  simp [writeFileT, hn]

theorem writeFileT_last_file (es : List (String × FsTree)) (n s c0 : String)
    (hn : mapGet es n = some (.file c0)) :
    writeFileT (.dir es) [n] s = .dir (entriesSet es n (.file s)) := by
  simp [writeFileT, hn]

theorem writeFileT_last_none (es : List (String × FsTree)) (n s : String)
    (hn : mapGet es n = none) :
    writeFileT (.dir es) [n] s = .dir (entriesSet es n (.file s)) := by
  simp [writeFileT, hn]

theorem writeFileT_deep_some (es : List (String × FsTree)) (n b s : String) (bs : List String)
    (t : FsTree) (hn : mapGet es n = some t) :
    writeFileT (.dir es) (n :: b :: bs) s = .dir (entriesSet es n (writeFileT t (b :: bs) s)) := by
  simp [writeFileT, hn]

theorem writeFileT_deep_none (es : List (String × FsTree)) (n b s : String) (bs : List String)
    (hn : mapGet es n = none) :
    writeFileT (.dir es) (n :: b :: bs) s = .dir es := by
  simp [writeFileT, hn]

/-- `MkdirAll` never changes any existing file. -/
theorem lookupPath_mkdirAllT_file (q : List String) (fs : FsTree) (p : List String) (c : String)
    (h : lookupPath fs p = some (.file c)) :
    lookupPath (mkdirAllT fs q) p = some (.file c) := by
  induction q generalizing fs p with
  | nil => simpa [mkdirAllT] using h
  | cons n qrest ih =>
    cases fs with
    | file c' => simpa [mkdirAllT] using h
    | dir es =>
      cases p with
      | nil => simp [lookupPath] at h
      | cons m prest =>
        cases hm : mapGet es m with
        | none =>
          rw [lookupPath_dir_cons_none es m prest hm] at h
          simp at h
        | some t =>
          rw [lookupPath_dir_cons_some es m prest t hm] at h
          by_cases hmn : m = n
          · subst hmn
            rw [mkdirAllT_dir_cons_some es m qrest t hm,
              lookupPath_dir_cons_some _ m prest _ (mapGet_entriesSet_self es m _)]
            exact ih t prest h
          · cases hn : mapGet es n with
            | some t' =>
              rw [mkdirAllT_dir_cons_some es n qrest t' hn,
                lookupPath_dir_cons_some _ m prest t
                  ((mapGet_entriesSet_ne es n m _ hmn).trans hm)]
              exact h
            | none =>
              rw [mkdirAllT_dir_cons_none es n qrest hn,
                lookupPath_dir_cons_some _ m prest t
                  ((mapGet_entriesSet_ne es n m _ hmn).trans hm)]
              exact h

/-- `MkdirAll` never deletes a directory. -/
theorem lookupPath_mkdirAllT_dir (q : List String) (fs : FsTree) (p : List String)
    (es₀ : List (String × FsTree)) (h : lookupPath fs p = some (.dir es₀)) :
    ∃ es₁, lookupPath (mkdirAllT fs q) p = some (.dir es₁) := by
  induction q generalizing fs p es₀ with
  | nil => exact ⟨es₀, by simpa [mkdirAllT] using h⟩
  | cons n qrest ih =>
    cases fs with
    | file c' =>
      cases p with
      | nil => simp [lookupPath] at h
      | cons m prest => simp [lookupPath] at h
    | dir es =>
      cases p with
      | nil =>
        cases hn : mapGet es n with
        | some t' =>
          refine ⟨entriesSet es n (mkdirAllT t' qrest), ?_⟩
          rw [mkdirAllT_dir_cons_some es n qrest t' hn]
          exact lookupPath_nil _
        | none =>
          refine ⟨entriesSet es n (mkdirAllT (.dir []) qrest), ?_⟩
          rw [mkdirAllT_dir_cons_none es n qrest hn]
          exact lookupPath_nil _
      | cons m prest =>
        cases hm : mapGet es m with
        | none =>
          rw [lookupPath_dir_cons_none es m prest hm] at h
          simp at h
        | some t =>
          rw [lookupPath_dir_cons_some es m prest t hm] at h
          by_cases hmn : m = n
          · subst hmn
            obtain ⟨es₁, h₁⟩ := ih t prest es₀ h
            refine ⟨es₁, ?_⟩
            rw [mkdirAllT_dir_cons_some es m qrest t hm,
              lookupPath_dir_cons_some _ m prest _ (mapGet_entriesSet_self es m _)]
            exact h₁
          · cases hn : mapGet es n with
            | some t' =>
              refine ⟨es₀, ?_⟩
              rw [mkdirAllT_dir_cons_some es n qrest t' hn,
                lookupPath_dir_cons_some _ m prest t
                  ((mapGet_entriesSet_ne es n m _ hmn).trans hm)]
              exact h
            | none =>
              refine ⟨es₀, ?_⟩
              rw [mkdirAllT_dir_cons_none es n qrest hn,
                lookupPath_dir_cons_some _ m prest t
                  ((mapGet_entriesSet_ne es n m _ hmn).trans hm)]
              exact h

/-- `WriteFile` changes no file other than its target. -/
theorem lookupPath_writeFileT_file (q : List String) (fs : FsTree) (s : String)
    (p : List String) (c : String) (hne : p ≠ q)
    (h : lookupPath fs p = some (.file c)) :
    lookupPath (writeFileT fs q s) p = some (.file c) := by
  induction q generalizing fs p with
  | nil => simpa [writeFileT] using h
  | cons n qrest ih =>
    cases fs with
    | file c' => simpa [writeFileT] using h
    | dir es =>
      cases p with
      | nil => simp [lookupPath] at h
      | cons m prest =>
        cases hm : mapGet es m with
        | none =>
          rw [lookupPath_dir_cons_none es m prest hm] at h
          simp at h
        | some t =>
          rw [lookupPath_dir_cons_some es m prest t hm] at h
          cases qrest with
          | nil =>
            by_cases hmn : m = n
            · subst hmn
              have hprest : prest ≠ [] := by
                intro hp
                exact hne (by rw [hp])
              cases t with
              | dir es' =>
                rw [writeFileT_last_dir es m s es' hm,
                  lookupPath_dir_cons_some es m prest _ hm]
                exact h
              | file c0 =>
                cases prest with
                | nil => exact absurd rfl hprest
                | cons a as => simp [lookupPath] at h
            · cases hn : mapGet es n with
              | some t' =>
                cases t' with
                | dir es' =>
                  rw [writeFileT_last_dir es n s es' hn,
                    lookupPath_dir_cons_some es m prest t hm]
                  exact h
                | file c0 =>
                  rw [writeFileT_last_file es n s c0 hn,
                    lookupPath_dir_cons_some _ m prest t
                      ((mapGet_entriesSet_ne es n m _ hmn).trans hm)]
                  exact h
              | none =>
                rw [writeFileT_last_none es n s hn,
                  lookupPath_dir_cons_some _ m prest t
                    ((mapGet_entriesSet_ne es n m _ hmn).trans hm)]
                exact h
          | cons b bs =>
            by_cases hmn : m = n
            · subst hmn
              have hprest : prest ≠ b :: bs := by
                intro hp
                exact hne (by rw [hp])
              rw [writeFileT_deep_some es m b s bs t hm,
                lookupPath_dir_cons_some _ m prest _ (mapGet_entriesSet_self es m _)]
              exact ih t prest hprest h
            · cases hn : mapGet es n with
              | some t' =>
                rw [writeFileT_deep_some es n b s bs t' hn,
                  lookupPath_dir_cons_some _ m prest t
                    ((mapGet_entriesSet_ne es n m _ hmn).trans hm)]
                exact h
              | none =>
                rw [writeFileT_deep_none es n b s bs hn,
                  lookupPath_dir_cons_some es m prest t hm]
                exact h

/-- `WriteFile` never deletes a directory. -/
theorem lookupPath_writeFileT_dir (q : List String) (fs : FsTree) (s : String)
    (p : List String) (es₀ : List (String × FsTree))
    (h : lookupPath fs p = some (.dir es₀)) :
    ∃ es₁, lookupPath (writeFileT fs q s) p = some (.dir es₁) := by
  induction q generalizing fs p es₀ with
  | nil => exact ⟨es₀, by simpa [writeFileT] using h⟩
  | cons n qrest ih =>
    cases fs with
    | file c' =>
      cases p with
      | nil => simp [lookupPath] at h
      | cons m prest => simp [lookupPath] at h
    | dir es =>
      cases p with
      | nil =>
        simp only [lookupPath, Option.some.injEq] at h
        cases qrest with
        | nil =>
          cases hn : mapGet es n with
          | some t' =>
            cases t' with
            | dir es' =>
              exact ⟨es, by rw [writeFileT_last_dir es n s es' hn]; exact lookupPath_nil _⟩
            | file c0 =>
              exact ⟨entriesSet es n (.file s),
                by rw [writeFileT_last_file es n s c0 hn]; exact lookupPath_nil _⟩
          | none =>
            exact ⟨entriesSet es n (.file s),
              by rw [writeFileT_last_none es n s hn]; exact lookupPath_nil _⟩
        | cons b bs =>
          cases hn : mapGet es n with
          | some t' =>
            exact ⟨entriesSet es n (writeFileT t' (b :: bs) s),
              by rw [writeFileT_deep_some es n b s bs t' hn]; exact lookupPath_nil _⟩
          | none =>
            exact ⟨es, by rw [writeFileT_deep_none es n b s bs hn]; exact lookupPath_nil _⟩
      | cons m prest =>
        cases hm : mapGet es m with
        | none =>
          rw [lookupPath_dir_cons_none es m prest hm] at h
          simp at h
        | some t =>
          rw [lookupPath_dir_cons_some es m prest t hm] at h
          cases qrest with
          | nil =>
            by_cases hmn : m = n
            · subst hmn
              cases t with
              | dir es' =>
                refine ⟨es₀, ?_⟩
                rw [writeFileT_last_dir es m s es' hm,
                  lookupPath_dir_cons_some es m prest _ hm]
                exact h
              | file c0 =>
                cases prest with
                | nil => simp [lookupPath] at h
                | cons a as => simp [lookupPath] at h
            · cases hn : mapGet es n with
              | some t' =>
                cases t' with
                | dir es' =>
                  refine ⟨es₀, ?_⟩
                  rw [writeFileT_last_dir es n s es' hn,
                    lookupPath_dir_cons_some es m prest t hm]
                  exact h
                | file c0 =>
                  refine ⟨es₀, ?_⟩
                  rw [writeFileT_last_file es n s c0 hn,
                    lookupPath_dir_cons_some _ m prest t
                      ((mapGet_entriesSet_ne es n m _ hmn).trans hm)]
                  exact h
              | none =>
                refine ⟨es₀, ?_⟩
                rw [writeFileT_last_none es n s hn,
                  lookupPath_dir_cons_some _ m prest t
                    ((mapGet_entriesSet_ne es n m _ hmn).trans hm)]
                exact h
          | cons b bs =>
            by_cases hmn : m = n
            · subst hmn
              obtain ⟨es₁, h₁⟩ := ih t prest es₀ h
              refine ⟨es₁, ?_⟩
              rw [writeFileT_deep_some es m b s bs t hm,
                lookupPath_dir_cons_some _ m prest _ (mapGet_entriesSet_self es m _)]
              exact h₁
            · cases hn : mapGet es n with
              | some t' =>
                refine ⟨es₀, ?_⟩
                rw [writeFileT_deep_some es n b s bs t' hn,
                  lookupPath_dir_cons_some _ m prest t
                    ((mapGet_entriesSet_ne es n m _ hmn).trans hm)]
                exact h
              | none =>
                refine ⟨es₀, ?_⟩
                rw [writeFileT_deep_none es n b s bs hn,
                  lookupPath_dir_cons_some es m prest t hm]
                exact h

theorem flushDocOps_writes (dp : List String) (docu : Document) (q : List String) (s : String)
    (h : FsOp.writeFile q s ∈ flushDocOps dp docu) : (q, s) ∈ docFieldWrites dp docu := by
  simp only [flushDocOps, docFieldWrites, List.mem_cons, List.mem_map] at h ⊢
  rcases h with h | ⟨kv, hkv, heq⟩
  · cases h
  · obtain ⟨h1, h2⟩ := FsOp.writeFile.inj heq
    exact ⟨kv, hkv, by rw [h1, h2]⟩

mutual

theorem flushCollectionOps_writes (base : List String) (c : Collection) (q : List String)
    (s : String) (h : FsOp.writeFile q s ∈ flushCollectionOps base c) :
    (q, s) ∈ Collection.fieldWrites base c := by
  cases c with
  | mk n docs colls =>
    simp only [flushCollectionOps, List.mem_cons, List.mem_append, List.mem_flatten,
      List.mem_map] at h
    simp only [Collection.fieldWrites, List.mem_append, List.mem_flatten, List.mem_map]
    rcases h with h | ⟨l, ⟨kv, hkv, hl⟩, hop⟩ | h
    · cases h
    · exact Or.inl ⟨docFieldWrites (base ++ [kv.1]) kv.2, ⟨kv, hkv, rfl⟩,
        flushDocOps_writes _ _ _ _ (hl ▸ hop)⟩
    · exact Or.inr (flushListOps_writes base colls q s h)

theorem flushListOps_writes (base : List String) (l : List (String × Collection))
    (q : List String) (s : String) (h : FsOp.writeFile q s ∈ flushListOps base l) :
    (q, s) ∈ listFieldWrites base l := by
  match l with
  | [] => simp [flushListOps] at h
  | (nm, c) :: rest =>
    simp only [flushListOps, List.mem_append] at h
    simp only [listFieldWrites, List.mem_append]
    rcases h with h | h
    · exact Or.inl (flushCollectionOps_writes (base ++ [nm]) c q s h)
    · exact Or.inr (flushListOps_writes base rest q s h)

end

/-- An existing file not targeted by any of the writes in an operation
list survives the whole list with its content intact. -/
theorem applyOps_file_frame (ops : List FsOp) (fs : FsTree) (p : List String) (c : String)
    (h : lookupPath fs p = some (.file c))
    (hops : ∀ q s, FsOp.writeFile q s ∈ ops → q ≠ p) :
    lookupPath (applyOps fs ops) p = some (.file c) := by
  induction ops generalizing fs with
  | nil => simpa [applyOps] using h
  | cons op rest ih =>
    have hstep : lookupPath (applyOp fs op) p = some (.file c) := by
      cases op with
      | mkdirAll q => exact lookupPath_mkdirAllT_file q fs p c h
      | writeFile q s =>
        exact lookupPath_writeFileT_file q fs s p c
          (fun hpq => hops q s (List.mem_cons_self _ _) hpq.symm) h
    exact ih (applyOp fs op) hstep (fun q s hm => hops q s (List.mem_cons_of_mem _ hm))

/-- An existing directory survives any list of mkdir/write operations. -/
theorem applyOps_dir_frame (ops : List FsOp) (fs : FsTree) (p : List String)
    (es₀ : List (String × FsTree)) (h : lookupPath fs p = some (.dir es₀)) :
    ∃ es₁, lookupPath (applyOps fs ops) p = some (.dir es₁) := by
  induction ops generalizing fs es₀ with
  | nil => exact ⟨es₀, by simpa [applyOps] using h⟩
  | cons op rest ih =>
    have hstep : ∃ es', lookupPath (applyOp fs op) p = some (.dir es') := by
      cases op with
      | mkdirAll q => exact lookupPath_mkdirAllT_dir q fs p es₀ h
      | writeFile q s => exact lookupPath_writeFileT_dir q fs s p es₀ h
    obtain ⟨es', h'⟩ := hstep
    exact ih (applyOp fs op) es' h'

/-- **C9.** `Close` never deletes anything: its operations are directory
creations plus exactly one file write per in-memory field (third
conjunct), every pre-existing directory survives (second conjunct), and
any pre-existing file whose path is not one of the field paths keeps its
exact content (first conjunct). -/
theorem close_never_deletes (d : Datastore) (fs : FsTree) (p : List String) (c : String)
    (hfile : lookupPath fs p = some (.file c))
    (hstale : p ∉ d.fieldWrites.map Prod.fst) :
    lookupPath (d.closeFs fs) p = some (.file c) ∧
    (∀ q es₀, lookupPath fs q = some (.dir es₀) →
      ∃ es₁, lookupPath (d.closeFs fs) q = some (.dir es₁)) ∧
    (∀ q s, FsOp.writeFile q s ∈ d.closeOps → (q, s) ∈ d.fieldWrites) := by
  have hw : ∀ q s, FsOp.writeFile q s ∈ d.closeOps → (q, s) ∈ d.fieldWrites :=
    fun q s hm => flushListOps_writes d.path d.collections q s hm
  refine ⟨?_, ?_, hw⟩
  · refine applyOps_file_frame d.closeOps fs p c hfile ?_
    intro q s hm hqp
    exact hstale (hqp ▸ List.mem_map_of_mem Prod.fst (hw q s hm))
  · intro q es₀ hq
    exact applyOps_dir_frame d.closeOps fs q es₀ hq

/-- Witness for C9: closing a one-field datastore over a filesystem that
already holds a stale file next to the written one leaves the stale file
untouched. -/
theorem close_never_deletes_witness :
    lookupPath
      ((⟨[], [("a", .mk "a" [("d1", ⟨"d1", [("k", [1])]⟩)] [])]⟩ : Datastore).closeFs
        (.dir [("a", .dir [("d1", .dir [("stale", .file "x")])])]))
      ["a", "d1", "stale"] = some (.file "x") :=
  (close_never_deletes ⟨[], [("a", .mk "a" [("d1", ⟨"d1", [("k", [1])]⟩)] [])]⟩
    (.dir [("a", .dir [("d1", .dir [("stale", .file "x")])])])
    ["a", "d1", "stale"] "x" rfl (by decide)).1

end DS
